import Mathlib

set_option maxRecDepth 8000

/-!
Verification development for the productivity bot (productivity_bot.py).

The source talks to Google Sheets; here the sheet rows are modelled as Lean
lists, a date string of the form YYYY-MM-DD is modelled as an integer day
number (the lexicographic order on well-formed date strings agrees with the
numeric order on day numbers, and the timedelta arithmetic of the source is
integer subtraction), and a backend fetch that can raise is modelled as an
Except value.  Python floats in the goal-percentage code are modelled by
exact rationals.
-/

/-! ## Text parser (source: parse_activity, lines 254-270)

The source matches the regular expression

  (word(s)) ws+ (digits) ws* (m|min|minutes?|h|hours?) ws* (rest)? end

with IGNORECASE against the stripped input, using the Python re engine:
a backtracking matcher with ordered alternation and greedy quantifiers.
The engine below reproduces exactly those semantics for the constructs the
pattern uses.  Character classes are the ASCII readings of the Python
classes; the dot does not match a newline, and the end anchor also matches
just before a single trailing newline, as in Python.
-/

/-- ASCII whitespace, as in the Python regex class and in str.strip. -/
def isSpaceChar (c : Char) : Bool :=
  c = ' ' || c = '\t' || c = '\n' || c = '\r' || c = '\x0b' || c = '\x0c'

/-- Python str.strip on both ends. -/
def pyStrip (s : String) : String :=
  String.mk (((s.data.dropWhile isSpaceChar).reverse.dropWhile isSpaceChar).reverse)

/-- ASCII reading of the regex word class: letters, digits, underscore. -/
def isWordChar (c : Char) : Bool := c.isAlphanum || c = '_'

/-- The regex digit class. -/
def isDigitChar (c : Char) : Bool := c.isDigit

/-- The regex dot: any character except a newline. -/
def isDotChar (c : Char) : Bool := c != '\n'

/-- Capture groups of a match, indexed by group number. -/
def Caps : Type := Nat → Option (List Char)

def capsEmpty : Caps := fun _ => none

def setCap (caps : Caps) (n : Nat) (v : List Char) : Caps :=
  fun m => if m = n then some v else caps m

/-- The regex fragments needed by the activity pattern. -/
inductive RE : Type where
  | eps : RE
  | cls : (Char → Bool) → RE
  | lit : Char → RE
  | cat : RE → RE → RE
  | alt : RE → RE → RE
  | quest : RE → RE
  | starCls : (Char → Bool) → RE
  | group : Nat → RE → RE
  | lineEnd : RE

/-- Case-insensitive character comparison (re.IGNORECASE). -/
def charIEq (a b : Char) : Bool := a.toLower = b.toLower

/-- Greedy backtracking over the number of characters a class star consumes:
try the longest prefix first, then give characters back one at a time. -/
def tryDrop (s : List Char) (caps : Caps) (k : List Char → Caps → Option Caps) :
    Nat → Option Caps
  | 0 => k s caps
  | n+1 =>
      match k (s.drop (n+1)) caps with
      | some r => some r
      | none => tryDrop s caps k n

/-- Backtracking matcher in continuation style, mirroring the Python engine:
ordered alternation, greedy option and star, captures recorded on the
successful path only. -/
def mmatch : RE → List Char → Caps → (List Char → Caps → Option Caps) → Option Caps
  | RE.eps, s, caps, k => k s caps
  | RE.cls p, s, caps, k =>
      match s with
      | [] => none
      | c :: rest => if p c then k rest caps else none
  | RE.lit c0, s, caps, k =>
      match s with
      | [] => none
      | c :: rest => if charIEq c c0 then k rest caps else none
  | RE.cat a b, s, caps, k => mmatch a s caps (fun s2 caps2 => mmatch b s2 caps2 k)
  | RE.alt a b, s, caps, k =>
      match mmatch a s caps k with
      | some r => some r
      | none => mmatch b s caps k
  | RE.quest a, s, caps, k =>
      match mmatch a s caps k with
      | some r => some r
      | none => k s caps
  | RE.starCls p, s, caps, k => tryDrop s caps k (s.takeWhile p).length
  | RE.group n a, s, caps, k =>
      mmatch a s caps
        (fun s2 caps2 => k s2 (setCap caps2 n (s.take (s.length - s2.length))))
  | RE.lineEnd, s, caps, k =>
      if s = [] || s = ['\n'] then k s caps else none

/-- A case-insensitive literal word. -/
def litStr (w : List Char) : RE := w.foldr (fun c r => RE.cat (RE.lit c) r) RE.eps

/-- One-or-more repetition of a character class. -/
def plusCls (p : Char → Bool) : RE := RE.cat (RE.cls p) (RE.starCls p)

/-- The unit alternation of the source pattern, in source order. -/
def unitRE : RE :=
  RE.alt (litStr ['m'])
    (RE.alt (litStr ['m', 'i', 'n'])
      (RE.alt (RE.cat (litStr ['m', 'i', 'n', 'u', 't', 'e']) (RE.quest (RE.lit 's')))
        (RE.alt (litStr ['h'])
          (RE.cat (litStr ['h', 'o', 'u', 'r']) (RE.quest (RE.lit 's'))))))

/-- The full activity pattern of the source, group numbers as in the source. -/
def activityPattern : RE :=
  RE.cat
    (RE.group 1 (RE.cat (plusCls isWordChar)
      (RE.quest (RE.cat (plusCls isSpaceChar) (plusCls isWordChar)))))
    (RE.cat (plusCls isSpaceChar)
      (RE.cat (RE.group 2 (plusCls isDigitChar))
        (RE.cat (RE.starCls isSpaceChar)
          (RE.cat (RE.group 3 unitRE)
            (RE.cat (RE.starCls isSpaceChar)
              (RE.cat (RE.quest (RE.group 4 (RE.starCls isDotChar)))
                RE.lineEnd))))))

/-- Anchored match (re.match) returning the captures on success. -/
def reMatch (r : RE) (s : String) : Option Caps :=
  mmatch r s.data capsEmpty (fun _ caps => some caps)

/-- Value of a decimal digit string (the int conversion of the source). -/
def digitsVal (l : List Char) : Nat :=
  l.foldl (fun n c => 10 * n + (c.toNat - 48)) 0

/-- Python str.lower on a character list. -/
def lowerStr (l : List Char) : String := String.mk (l.map Char.toLower)

/-- parse_activity (source lines 254-270): strip, match, lowercase the name
and the unit, read the digits, turn an absent or empty notes group into
none, and multiply by 60 when the unit starts with h. -/
def parse_activity (text : String) : Option (String × Nat × Option String) :=
  match reMatch activityPattern (pyStrip text) with
  | none => none
  | some caps =>
      let g1 := (caps 1).getD []
      let g2 := (caps 2).getD []
      let g3 := (caps 3).getD []
      let activity_name := lowerStr g1
      let duration0 := digitsVal g2
      let unit := g3.map Char.toLower
      let notes : Option String :=
        match caps 4 with
        | none => none
        | some g4 => if g4 = [] then none else some (pyStrip (String.mk g4))
      let duration := if unit.head? = some 'h' then duration0 * 60 else duration0
      some (activity_name, duration, notes)

/-! ## String order

Python compares strings lexicographically by code point; the sorted calls
of the source use that order on activity names, tuples and timestamps.
The comparison is defined here directly on the character lists, together
with the order properties the sorting arguments need. -/

/-- Lexicographic strict order on character lists, by code point. -/
def strLtB : List Char → List Char → Bool
  | [], [] => false
  | [], _ :: _ => true
  | _ :: _, [] => false
  | a :: as, b :: bs => if a = b then strLtB as bs else decide (a < b)

/-- The Python string order as a proposition on strings. -/
def strLe (s t : String) : Prop := strLtB s.data t.data = true ∨ s = t

instance : DecidableRel strLe := fun s t => by unfold strLe; infer_instance

/-- Strings with equal character lists are equal. -/
theorem string_data_inj {s t : String} (h : s.data = t.data) : s = t := by
  cases s; cases t; cases h; rfl

theorem strLtB_irrefl : ∀ l : List Char, strLtB l l = false
  | [] => rfl
  | a :: as => by simp [strLtB, strLtB_irrefl as]

theorem strLtB_asymm : ∀ x y : List Char,
    strLtB x y = true → strLtB y x = false
  | [], [] => by simp [strLtB]
  | [], _ :: _ => by simp [strLtB]
  | _ :: _, [] => by simp [strLtB]
  | a :: as, b :: bs => by
      by_cases hab : a = b
      · subst hab
        simpa [strLtB] using strLtB_asymm as bs
      · have hba : ¬b = a := fun h => hab h.symm
        simp only [strLtB, if_neg hab, if_neg hba, decide_eq_true_eq]
        intro h
        exact decide_eq_false (lt_asymm h)

theorem strLtB_trans : ∀ x y z : List Char,
    strLtB x y = true → strLtB y z = true → strLtB x z = true
  | [], [], _ => by simp [strLtB]
  | [], _ :: _, [] => by simp [strLtB]
  | [], _ :: _, _ :: _ => by simp [strLtB]
  | _ :: _, [], _ => by simp [strLtB]
  | _ :: _, _ :: _, [] => by simp [strLtB]
  | a :: as, b :: bs, c :: cs => by
      by_cases hab : a = b <;> by_cases hbc : b = c
      · subst hab; subst hbc
        simpa [strLtB] using strLtB_trans as bs cs
      · subst hab
        simp only [strLtB, if_pos rfl, if_neg hbc, decide_eq_true_eq]
        intro _ h2
        simp [if_neg hbc, h2]
      · subst hbc
        simp only [strLtB, if_neg hab, if_pos rfl, decide_eq_true_eq]
        intro h1 _
        simp [if_neg hab, h1]
      · simp only [strLtB, if_neg hab, if_neg hbc, decide_eq_true_eq]
        intro h1 h2
        have hac : a < c := lt_trans h1 h2
        simp [if_neg (ne_of_lt hac), hac]

theorem strLtB_total : ∀ x y : List Char,
    x ≠ y → strLtB x y = true ∨ strLtB y x = true
  | [], [] => fun h => absurd rfl h
  | [], _ :: _ => fun _ => Or.inl rfl
  | _ :: _, [] => fun _ => Or.inr rfl
  | a :: as, b :: bs => by
      intro hne
      by_cases hab : a = b
      · subst hab
        have htl : as ≠ bs := fun h => hne (by rw [h])
        rcases strLtB_total as bs htl with h | h
        · exact Or.inl (by simpa [strLtB] using h)
        · exact Or.inr (by simpa [strLtB] using h)
      · have hba : ¬b = a := fun h => hab h.symm
        rcases lt_or_gt_of_ne (show a ≠ b from hab) with h | h
        · exact Or.inl (by simp [strLtB, if_neg hab, h])
        · exact Or.inr (by simp [strLtB, if_neg hba, h])

instance : IsTotal String strLe := by
  constructor
  intro s t
  by_cases h : s = t
  · exact Or.inl (Or.inr h)
  · have hd : s.data ≠ t.data := by
      intro hdata
      apply h
      cases s; cases t; cases hdata; rfl
    rcases strLtB_total s.data t.data hd with h2 | h2
    · exact Or.inl (Or.inl h2)
    · exact Or.inr (Or.inl h2)

instance : IsTrans String strLe := by
  constructor
  intro s t u hst htu
  rcases hst with h1 | h1
  · rcases htu with h2 | h2
    · exact Or.inl (strLtB_trans _ _ _ h1 h2)
    · exact Or.inl (h2 ▸ h1)
  · subst h1
    exact htu

instance : IsAntisymm String strLe := by
  constructor
  intro s t hst hts
  rcases hst with h1 | h1
  · rcases hts with h2 | h2
    · have := strLtB_asymm _ _ h1
      rw [h2] at this
      cases this
    · exact h2.symm
  · exact h1

/-! ## Data model (source: SimpleMultiUserDB, lines 31-233)

A sheet row of the Activities sheet carries name, duration, timestamp,
notes and date; the date cell may be empty (modelled as none).  Durations
and targets are the integers the sheet returns.  The Active cell of a goal
row holds the literal strings TRUE or FALSE, as in the sheet. -/

structure ActivityRecord where
  name : String
  duration : Int
  timestamp : String
  notes : String
  date : Option Int
deriving DecidableEq, Repr

structure GoalRec where
  name : String
  target : Int
  period : String
  active : String
deriving DecidableEq, Repr

/-- log_activity (lines 86-99): on success append one row whose notes cell
is the notes text or the empty string, and whose timestamp and date cells
are the current time; on a storage fault (appendOk false) return false and
leave the store unchanged. -/
def log_activity (appendOk : Bool) (now_ts : String) (now_date : Int)
    (recs : List ActivityRecord) (activity_name : String)
    (duration_minutes : Int) (notes : Option String) :
    Bool × List ActivityRecord :=
  if appendOk then
    (true, recs ++ [⟨activity_name, duration_minutes, now_ts, notes.getD "", some now_date⟩])
  else
    (false, recs)

/-- get_today_activities (lines 101-118): walk the rows in sheet order and
collect the tuples whose date cell equals today; an exception in the fetch
yields the empty list. -/
def get_today_activities (today : Int)
    (fetch : Except String (List ActivityRecord)) :
    List (String × Int × String × String) :=
  match fetch with
  | Except.error _ => []
  | Except.ok recs =>
      recs.foldl
        (fun results r =>
          if r.date = some today then
            results ++ [(r.name, r.duration, r.timestamp, r.notes)]
          else results) []

/-- One step of the week-summary loop body (lines 128-138): the totals and
counts dictionaries, which share their keys, are modelled as one
association list in insertion order. -/
def upsert (m : List (String × Int × Nat)) (name : String) (dur : Int) :
    List (String × Int × Nat) :=
  match m with
  | [] => [(name, dur, 1)]
  | (k, t, c) :: rest =>
      if k = name then (k, t + dur, c + 1) :: rest
      else (k, t, c) :: upsert rest name dur

/-- Dictionary lookup in the association list. -/
def alookup : List (String × Int × Nat) → String → Option (Int × Nat)
  | [], _ => none
  | (k, t, c) :: rest, n => if k = n then some (t, c) else alookup rest n

/-- The date test of the source window filters (lines 129 and 205): an
empty date cell compares below every cutoff, a filled one by its day
number. -/
def dateGeB (cutoff : Int) : Option Int → Bool
  | some d => decide (cutoff ≤ d)
  | none => false

/-- The accumulation loop of get_week_summary (lines 128-138). -/
def weekFold (week_ago : Int) (recs : List ActivityRecord) :
    List (String × Int × Nat) :=
  recs.foldl
    (fun m r => if dateGeB week_ago r.date then upsert m r.name r.duration else m)
    []

/-- The result rows of get_week_summary (lines 123-141): accumulate totals
and counts over the rows whose date cell is at least the day seven days
before today, then list the dictionary entries by sorted activity name. -/
def week_summary_rows (today : Int) (recs : List ActivityRecord) :
    List (String × Int × Nat) :=
  let m := weekFold (today - 7) recs
  (List.insertionSort strLe (m.map Prod.fst)).map
    (fun n => (n, (alookup m n).getD (0, 0)))

/-- get_week_summary (lines 120-144); an exception yields the empty list. -/
def get_week_summary (today : Int)
    (fetch : Except String (List ActivityRecord)) :
    List (String × Int × Nat) :=
  match fetch with
  | Except.error _ => []
  | Except.ok recs => week_summary_rows today recs

/-- The consecutive-day walk of get_streak (lines 161-170): starting from
the most recent date, extend the streak while each next date in the sorted
list is exactly one day earlier, and stop at the first gap. -/
def streakWalk (current : Int) : List Int → Nat
  | [] => 1
  | d :: rest => if current - d = 1 then 1 + streakWalk d rest else 1

/-- The distinct logged dates of one activity (line 149: a set of the
filled date cells of the matching rows). -/
def streakDates (recs : List ActivityRecord) (activity_name : String) :
    List Int :=
  (recs.filterMap
    (fun r => if r.name = activity_name then r.date else none)).dedup

/-- The body of get_streak over the collected dates (lines 152-172):
0 when there are none or when the most recent one is strictly before
yesterday, and otherwise the walk over the dates in decreasing order.
The reverse sort of the source is an ascending insertion sort followed by
reverse. -/
def streakOfDates (today : Int) (dates : List Int) : Nat :=
  if dates.isEmpty then 0
  else
    match (List.insertionSort (fun a b : Int => a ≤ b) dates).reverse with
    | [] => 0
    | d0 :: rest =>
        if d0 < today - 1 then 0
        else streakWalk d0 rest

/-- get_streak (lines 146-174): collect the distinct dates of the activity
and walk them; any exception yields 0. -/
def get_streak (today : Int) (fetch : Except String (List ActivityRecord))
    (activity_name : String) : Nat :=
  match fetch with
  | Except.error _ => 0
  | Except.ok recs => streakOfDates today (streakDates recs activity_name)

/-- The cell update of the set_goal loop (lines 179-181): write FALSE into
the Active cell of a row that carries the same name and period. -/
def deactivate (activity_name period : String) (g : GoalRec) : GoalRec :=
  if g.name = activity_name ∧ g.period = period then
    { g with active := "FALSE" }
  else g

/-- set_goal (lines 176-187): write FALSE into the Active cell of every row
with the same name and period, then append one active row. -/
def set_goal (goals : List GoalRec) (activity_name : String)
    (target_minutes : Int) (period : String) : List GoalRec :=
  goals.map (deactivate activity_name period) ++
    [⟨activity_name, target_minutes, period, "TRUE"⟩]

/-- The current-progress sum of get_active_goals (lines 203-205). -/
def goalCurrent (start_date : Int) (recs : List ActivityRecord)
    (activity_name : String) : Int :=
  ((recs.filter fun r =>
      decide (r.name = activity_name) && dateGeB start_date r.date).map
    (fun r => r.duration)).sum

/-- The per-goal body of get_active_goals (lines 195-207): an active goal
row becomes a result tuple with its current progress over the period
window, seven days back for a week period and today only otherwise. -/
def goalRow (today : Int) (recs : List ActivityRecord) (g : GoalRec) :
    Option (String × Int × Int × String) :=
  if g.active = "TRUE" then
    some (g.name, g.target,
      goalCurrent (today - (if g.period = "week" then 7 else 0)) recs g.name,
      g.period)
  else none

/-- get_active_goals (lines 189-212): for each goal row whose Active cell
is TRUE, report its name, target, current progress over the period window
and period; an exception in either fetch yields the empty list. -/
def get_active_goals (today : Int) (gfetch : Except String (List GoalRec))
    (afetch : Except String (List ActivityRecord)) :
    List (String × Int × Int × String) :=
  match gfetch, afetch with
  | Except.ok goals, Except.ok recs => goals.filterMap (goalRow today recs)
  | _, _ => []

/-- add_quick_button (lines 214-226): scan for an identical tuple; when one
exists return false and change nothing, otherwise append the tuple and
return true; on a storage fault (ok false) return false. -/
def add_quick_button (ok : Bool) (btns : List (String × Int))
    (activity_name : String) (duration_minutes : Int) :
    Bool × List (String × Int) :=
  if ok then
    if btns.any (fun b => b.1 = activity_name && b.2 = duration_minutes) then
      (false, btns)
    else
      (true, btns ++ [(activity_name, duration_minutes)])
  else (false, btns)

/-- The tuple order Python sorted uses on the button pairs: lexicographic,
the name by string order and the duration by integer order. -/
def btnLe (a b : String × Int) : Prop :=
  strLtB a.1.data b.1.data = true ∨ (a.1 = b.1 ∧ a.2 ≤ b.2)

instance : DecidableRel btnLe := fun a b => by
  unfold btnLe; infer_instance

instance : IsTotal (String × Int) btnLe := by
  constructor
  intro a b
  by_cases h : a.1 = b.1
  · rcases le_total a.2 b.2 with h2 | h2
    · exact Or.inl (Or.inr ⟨h, h2⟩)
    · exact Or.inr (Or.inr ⟨h.symm, h2⟩)
  · have hd : a.1.data ≠ b.1.data := fun hdata => h (string_data_inj hdata)
    rcases strLtB_total _ _ hd with h2 | h2
    · exact Or.inl (Or.inl h2)
    · exact Or.inr (Or.inl h2)

instance : IsTrans (String × Int) btnLe := by
  constructor
  intro a b c hab hbc
  rcases hab with h1 | ⟨e1, l1⟩
  · rcases hbc with h2 | ⟨e2, _⟩
    · exact Or.inl (strLtB_trans _ _ _ h1 h2)
    · exact Or.inl (e2 ▸ h1)
  · rcases hbc with h2 | ⟨e2, l2⟩
    · exact Or.inl (e1 ▸ h2)
    · exact Or.inr ⟨e1.trans e2, l1.trans l2⟩

/-- get_quick_buttons (lines 228-233): all button tuples in the Python
sorted order; an exception yields the empty list. -/
def get_quick_buttons (fetch : Except String (List (String × Int))) :
    List (String × Int) :=
  match fetch with
  | Except.error _ => []
  | Except.ok btns => List.insertionSort btnLe btns

/-! ## Metrics rendering (source: goals_status, lines 505-513)

The Python float arithmetic is modelled by exact rationals, and the int
conversion by truncation toward zero. -/

/-- The percentage of goals_status line 508: current over target times 100
when the target is positive, 0 otherwise. -/
def progress_pct (current target : Int) : ℚ :=
  if 0 < target then (current : ℚ) / (target : ℚ) * 100 else 0

/-- Python int conversion on a rational: truncation toward zero. -/
def truncQ (q : ℚ) : Int := if 0 ≤ q then ⌊q⌋ else ⌈q⌉

/-- The ten-segment bar of goals_status line 509: filled segments, then the
remainder up to ten as empty segments, each count clamped at zero exactly
as Python string repetition clamps a negative count. -/
def render_bar (pct : ℚ) : String :=
  String.mk (List.replicate (truncQ (pct / 10)).toNat '█' ++
    List.replicate (10 - truncQ (pct / 10)).toNat '░')

/-- Number of filled segments shown in the bar. -/
def barFilled (pct : ℚ) : Nat := (render_bar pct).data.count '█'

/-! ## Shared list lemmas -/

/-- The today loop with its accumulator: appending matches in sheet order
is filtering in sheet order. -/
theorem todayFold_eq_filter_map (today : Int) :
    ∀ (l : List ActivityRecord) (acc : List (String × Int × String × String)),
      l.foldl
        (fun results r =>
          if r.date = some today then
            results ++ [(r.name, r.duration, r.timestamp, r.notes)]
          else results) acc =
      acc ++ (l.filter fun r => decide (r.date = some today)).map
        (fun r => (r.name, r.duration, r.timestamp, r.notes)) := by
  intro l
  induction l with
  | nil => intro acc; simp
  | cons r rest ih =>
      intro acc
      by_cases h : r.date = some today
      · simp [List.filter_cons, h, ih]
      · simp [List.filter_cons, h, ih]

/-- get_today_activities on a successful fetch is a filter of the rows in
sheet order. -/
theorem get_today_activities_ok (today : Int) (recs : List ActivityRecord) :
    get_today_activities today (Except.ok recs) =
      (recs.filter fun r => decide (r.date = some today)).map
        (fun r => (r.name, r.duration, r.timestamp, r.notes)) := by
  unfold get_today_activities
  exact todayFold_eq_filter_map today recs []

/-! ## C5: parser examples and total failure behaviour -/

/-- C5: the parser sends "exercise 30m" to ("exercise", 30, no notes) and
"reading 1h great book" to ("reading", 60, "great book"), the hour unit
multiplying by 60; "just chatting" yields none, and any input rejected by
the pattern yields none rather than an error. -/
theorem parse_activity_examples_and_failure :
    parse_activity "exercise 30m" = some ("exercise", 30, none) ∧
    parse_activity "reading 1h great book" =
      some ("reading", 60, some "great book") ∧
    parse_activity "just chatting" = none ∧
    ∀ s : String, reMatch activityPattern (pyStrip s) = none →
      parse_activity s = none := by
  refine ⟨by decide, by decide, by decide, ?_⟩
  intro s h
  simp only [parse_activity, h]

/-- Witness for C5 at the concrete non-matching input. -/
theorem parse_activity_examples_and_failure_witness :
    reMatch activityPattern (pyStrip "just chatting") = none ∧
    parse_activity "just chatting" = none := by
  have h0 : reMatch activityPattern (pyStrip "just chatting") = none :=
    Option.eq_none_of_isNone (by decide)
  exact ⟨h0, parse_activity_examples_and_failure.2.2.2 "just chatting" h0⟩

/-! ## C2: the minutes unit is truncated by the alternation order -/

/-- C2: on "coding 45 minutes" the ordered alternation of the source
pattern matches the single letter m as the unit, so the parser returns the
leftover text "inutes" as notes instead of consuming "minutes" as the unit
and returning no notes.  The min and minutes alternatives of the pattern
are unreachable behind the m alternative. -/
theorem parse_activity_minutes_truncated :
    parse_activity "coding 45 minutes" = some ("coding", 45, some "inutes") := by
  decide

/-! ## C9: every read swallows storage faults -/

/-- C9: a storage fault in any read returns the empty result, equal to the
result of the same read over an empty store, and a streak read returns 0;
at the interface a faulty read is indistinguishable from absent data. -/
theorem reads_swallow_storage_faults :
    ∀ (e : String) (today : Int) (name : String)
      (gf : Except String (List GoalRec))
      (af : Except String (List ActivityRecord)),
    get_today_activities today (Except.error e) =
      get_today_activities today (Except.ok []) ∧
    get_week_summary today (Except.error e) =
      get_week_summary today (Except.ok []) ∧
    get_active_goals today (Except.error e) af = [] ∧
    get_active_goals today gf (Except.error e) = [] ∧
    get_active_goals today (Except.error e) af =
      get_active_goals today (Except.ok []) (Except.ok []) ∧
    get_quick_buttons (Except.error e) = get_quick_buttons (Except.ok []) ∧
    get_streak today (Except.error e) name =
      get_streak today (Except.ok []) name := by
  intro e today name gf af
  refine ⟨rfl, rfl, ?_, ?_, ?_, rfl, rfl⟩
  · cases af <;> rfl
  · cases gf <;> rfl
  · cases af <;> rfl

/-! ## C10: absent notes are stored as the empty string -/

/-- C10: a successful log with absent notes appends a row whose notes cell
is the empty string, and the today listing then returns that entry with an
empty notes string rather than an absent one. -/
theorem log_none_notes_stored_empty :
    ∀ (ts : String) (today : Int) (recs : List ActivityRecord)
      (n : String) (d : Int),
    log_activity true ts today recs n d none =
      (true, recs ++ [⟨n, d, ts, "", some today⟩]) ∧
    (n, d, ts, "") ∈ get_today_activities today
      (Except.ok (log_activity true ts today recs n d none).2) := by
  intro ts today recs n d
  refine ⟨rfl, ?_⟩
  rw [show (log_activity true ts today recs n d none).2 =
      recs ++ [⟨n, d, ts, "", some today⟩] from rfl]
  rw [get_today_activities_ok]
  simp

/-! ## C8: order of the today listing -/

/-- The ordering relation the claim asserts for the today listing: newest
(largest timestamp) first. -/
def tsGe (a b : ActivityRecord) : Prop := strLe b.timestamp a.timestamp

instance : DecidableRel tsGe := fun a b => by unfold tsGe; infer_instance

/-- Written from the claim words for comparison: the entries of the current
date, ordered newest first. -/
def today_claim (today : Int) (recs : List ActivityRecord) :
    List (String × Int × String × String) :=
  (List.insertionSort tsGe
      (recs.filter fun r => decide (r.date = some today))).map
    (fun r => (r.name, r.duration, r.timestamp, r.notes))

def demoTodayA : ActivityRecord := ⟨"exercise", 10, "2024-01-01 08:00:00", "", some 5⟩

def demoTodayB : ActivityRecord := ⟨"reading", 20, "2024-01-01 09:00:00", "", some 5⟩

/-- C8 counterexample: with two entries logged on the same day the code
returns them in sheet (insertion) order, oldest timestamp first, while the
claim orders them newest first, so the two listings differ. -/
theorem get_today_not_newest_first :
    get_today_activities 5 (Except.ok [demoTodayA, demoTodayB]) =
      [("exercise", 10, "2024-01-01 08:00:00", ""),
       ("reading", 20, "2024-01-01 09:00:00", "")] ∧
    today_claim 5 [demoTodayA, demoTodayB] =
      [("reading", 20, "2024-01-01 09:00:00", ""),
       ("exercise", 10, "2024-01-01 08:00:00", "")] ∧
    get_today_activities 5 (Except.ok [demoTodayA, demoTodayB]) ≠
      today_claim 5 [demoTodayA, demoTodayB] := by
  refine ⟨by decide, by decide, by decide⟩

/-- C8 amended: the today listing returns exactly the entries whose date
cell equals the current date, in the stored (insertion, oldest first)
order rather than newest first. -/
theorem get_today_filter_in_insertion_order :
    ∀ (today : Int) (recs : List ActivityRecord),
    get_today_activities today (Except.ok recs) =
      (recs.filter fun r => decide (r.date = some today)).map
        (fun r => (r.name, r.duration, r.timestamp, r.notes)) :=
  get_today_activities_ok

/-! ## C7: quick buttons are idempotent and listed sorted -/

/-- C7: from a store without the tuple, adding the same quick button twice
returns true then false, the second call leaves the store unchanged, the
listing afterwards contains exactly one row with that tuple, and every
listing is sorted by activity name. -/
theorem add_quick_button_idempotent :
    ∀ (btns : List (String × Int)) (n : String) (d : Int),
    (n, d) ∉ btns →
    (add_quick_button true btns n d).1 = true ∧
    (add_quick_button true (add_quick_button true btns n d).2 n d).1 = false ∧
    (add_quick_button true (add_quick_button true btns n d).2 n d).2 =
      (add_quick_button true btns n d).2 ∧
    ((get_quick_buttons (Except.ok
        (add_quick_button true (add_quick_button true btns n d).2 n d).2)).filter
      (fun b => decide (b = (n, d)))).length = 1 ∧
    ∀ bs : List (String × Int),
      (get_quick_buttons (Except.ok bs)).Sorted (fun a b => strLe a.1 b.1) := by
  intro btns n d hmem
  have hany : (btns.any fun b => b.1 = n && b.2 = d) = false := by
    rw [List.any_eq_false]
    intro b hb
    simp only [Bool.and_eq_true, decide_eq_true_eq, not_and]
    intro h1 h2
    have hb2 : b = (n, d) := by
      cases b
      simp only at h1 h2
      rw [h1, h2]
    exact hmem (hb2 ▸ hb)
  have h1 : add_quick_button true btns n d = (true, btns ++ [(n, d)]) := by
    simp [add_quick_button, hany]
  have hany2 : ((btns ++ [(n, d)]).any fun b => b.1 = n && b.2 = d) = true := by
    rw [List.any_eq_true]
    exact ⟨(n, d), by simp, by simp⟩
  have h2 : add_quick_button true (btns ++ [(n, d)]) n d =
      (false, btns ++ [(n, d)]) := by
    simp [add_quick_button, hany2]
  have hq : ∀ bs : List (String × Int),
      get_quick_buttons (Except.ok bs) = List.insertionSort btnLe bs :=
    fun bs => rfl
  refine ⟨by rw [h1], by rw [h1, h2], by rw [h1, h2], ?_, ?_⟩
  · rw [h1, h2]
    show ((get_quick_buttons (Except.ok (btns ++ [(n, d)]))).filter
      (fun b => decide (b = (n, d)))).length = 1
    rw [hq, ← List.countP_eq_length_filter,
      List.Perm.countP_eq _ (List.perm_insertionSort btnLe (btns ++ [(n, d)])),
      List.countP_append]
    have hz : (btns.countP fun b => decide (b = (n, d))) = 0 := by
      rw [List.countP_eq_zero]
      intro a ha
      simp only [decide_eq_true_eq]
      intro he
      exact hmem (he ▸ ha)
    rw [hz]
    simp [List.countP_cons]
  · intro bs
    rw [hq]
    refine List.Pairwise.imp ?_ (List.sorted_insertionSort btnLe bs)
    intro a b hab
    rcases hab with h | ⟨h, _⟩
    · exact Or.inl h
    · exact Or.inr h

/-- Witness for C7 at the empty store. -/
theorem add_quick_button_idempotent_witness :
    (("exercise", (30 : Int)) ∉ ([] : List (String × Int))) ∧
    (add_quick_button true [] "exercise" 30).1 = true ∧
    (add_quick_button true (add_quick_button true [] "exercise" 30).2
      "exercise" 30).1 = false :=
  ⟨by decide,
    (add_quick_button_idempotent [] "exercise" 30 (by decide)).1,
    (add_quick_button_idempotent [] "exercise" 30 (by decide)).2.1⟩

/-! ## C4: goal exclusivity -/

/-- A history of setGoal commands applied to a fresh goals sheet. -/
def applyGoalOps (ops : List (String × Int × String)) : List GoalRec :=
  ops.foldl (fun gs op => set_goal gs op.1 op.2.1 op.2.2) []

/-- The active-row test for one activity and period pair. -/
def activeFor (n p : String) (g : GoalRec) : Bool :=
  decide (g.name = n) && decide (g.period = p) && decide (g.active = "TRUE")

/-- Number of active rows for one activity and period pair. -/
def countActive (gs : List GoalRec) (n p : String) : Nat :=
  gs.countP (activeFor n p)

theorem activeFor_true_iff (n p : String) (g : GoalRec) :
    activeFor n p g = true ↔ g.name = n ∧ g.period = p ∧ g.active = "TRUE" := by
  simp [activeFor, and_assoc]

theorem deactivate_match {n0 p0 : String} {g : GoalRec}
    (hm : g.name = n0 ∧ g.period = p0) :
    deactivate n0 p0 g = { g with active := "FALSE" } := by
  simp [deactivate, hm]

theorem deactivate_nomatch {n0 p0 : String} {g : GoalRec}
    (hm : ¬(g.name = n0 ∧ g.period = p0)) :
    deactivate n0 p0 g = g := by
  simp [deactivate, hm]

/-- After the deactivation pass of set_goal, the pair it targets has no
active rows left, and every other pair keeps its count. -/
theorem countActive_deactivate (n0 p0 n p : String) :
    ∀ gs : List GoalRec,
    (gs.map (deactivate n0 p0)).countP (activeFor n p) =
      if n = n0 ∧ p = p0 then 0 else countActive gs n p := by
  intro gs
  induction gs with
  | nil => simp [countActive]
  | cons g rest ih =>
      rw [List.map_cons, List.countP_cons, ih]
      by_cases hm : g.name = n0 ∧ g.period = p0
      · have hfg : activeFor n p (deactivate n0 p0 g) = false := by
          rw [deactivate_match hm]
          simp [activeFor]
        rw [hfg]
        by_cases hnp : n = n0 ∧ p = p0
        · simp [hnp]
        · have hg : activeFor n p g = false := by
            rw [Bool.eq_false_iff]
            intro hc
            rcases (activeFor_true_iff n p g).mp hc with ⟨h1, h2, _⟩
            exact hnp ⟨by rw [← h1, hm.1], by rw [← h2, hm.2]⟩
          simp [hnp, countActive, List.countP_cons, hg]
      · rw [deactivate_nomatch hm]
        by_cases hnp : n = n0 ∧ p = p0
        · obtain ⟨hn, hp⟩ := hnp
          subst hn
          subst hp
          have hg : activeFor n p g = false := by
            rw [Bool.eq_false_iff]
            intro hc
            rcases (activeFor_true_iff n p g).mp hc with ⟨h1, h2, _⟩
            exact hm ⟨h1, h2⟩
          simp [hg]
        · simp only [hnp, if_false]
          unfold countActive
          rw [List.countP_cons]

/-- set_goal leaves exactly one active row for the pair it sets and keeps
every other count unchanged. -/
theorem countActive_set_goal (gs : List GoalRec) (n0 : String) (t : Int)
    (p0 n p : String) :
    countActive (set_goal gs n0 t p0) n p =
      if n = n0 ∧ p = p0 then 1 else countActive gs n p := by
  unfold set_goal countActive
  rw [List.countP_append]
  rw [show (gs.map (deactivate n0 p0)).countP (activeFor n p) =
      if n = n0 ∧ p = p0 then 0 else countActive gs n p from
    countActive_deactivate n0 p0 n p gs]
  by_cases hnp : n = n0 ∧ p = p0
  · obtain ⟨hn, hp⟩ := hnp
    subst hn
    subst hp
    have hrow : activeFor n p (⟨n, t, p, "TRUE"⟩ : GoalRec) = true := by
      rw [activeFor_true_iff]
      exact ⟨rfl, rfl, rfl⟩
    simp [List.countP_cons, hrow]
  · have hrow : activeFor n p (⟨n0, t, p0, "TRUE"⟩ : GoalRec) = false := by
      rw [Bool.eq_false_iff]
      intro hc
      rcases (activeFor_true_iff n p _).mp hc with ⟨h1, h2, _⟩
      exact hnp ⟨h1.symm, h2.symm⟩
    simp [hnp, countActive, List.countP_cons, hrow]

/-- The invariant propagates through any run of setGoal commands. -/
theorem countActive_foldl_le_one :
    ∀ (ops : List (String × Int × String)) (gs : List GoalRec),
    (∀ n p, countActive gs n p ≤ 1) →
    ∀ n p,
      countActive (ops.foldl (fun gs op => set_goal gs op.1 op.2.1 op.2.2) gs) n p ≤ 1 := by
  intro ops
  induction ops with
  | nil => intro gs h; exact h
  | cons op rest ih =>
      intro gs h n p
      refine ih (set_goal gs op.1 op.2.1 op.2.2) ?_ n p
      intro n2 p2
      rw [countActive_set_goal]
      by_cases hnp : n2 = op.1 ∧ p2 = op.2.2
      · simp [hnp]
      · simp only [hnp, if_false]
        exact h n2 p2

/-- After the deactivation pass, no goal row of the targeted pair survives
into the active-goals listing. -/
theorem goalRows_deactivated (today : Int) (recs : List ActivityRecord)
    (n p : String) :
    ∀ gs : List GoalRec,
    (((gs.map (deactivate n p)).filterMap (goalRow today recs)).filter
      (fun row => decide (row.1 = n) && decide (row.2.2.2 = p))) = [] := by
  intro gs
  induction gs with
  | nil => rfl
  | cons g rest ih =>
      simp only [List.map_cons, List.filterMap_cons]
      by_cases hm : g.name = n ∧ g.period = p
      · rw [deactivate_match hm]
        have hnone : goalRow today recs { g with active := "FALSE" } = none := by
          simp [goalRow]
        rw [hnone]
        exact ih
      · rw [deactivate_nomatch hm]
        by_cases hact : g.active = "TRUE"
        · have hsome : goalRow today recs g =
              some (g.name, g.target,
                goalCurrent (today - (if g.period = "week" then 7 else 0)) recs g.name,
                g.period) := by
            simp [goalRow, hact]
          rw [hsome, List.filter_cons]
          have hrow : (decide (g.name = n) && decide (g.period = p)) = false := by
            rw [Bool.eq_false_iff]
            intro hc
            simp only [Bool.and_eq_true, decide_eq_true_eq] at hc
            exact hm hc
          simp only [hrow, Bool.false_eq_true, if_false]
          exact ih
        · have hnone : goalRow today recs g = none := by
            simp [goalRow, hact]
          rw [hnone]
          exact ih

/-- C4: after any history of setGoal commands, at most one goal row per
activity and period pair is active; and two sequential setGoal calls for
the same pair with different targets leave the active-goals listing with
exactly one row for that pair, carrying the latest target. -/
theorem set_goal_exclusive :
    (∀ (ops : List (String × Int × String)) (n p : String),
      countActive (applyGoalOps ops) n p ≤ 1) ∧
    (∀ (gs : List GoalRec) (recs : List ActivityRecord) (today : Int)
        (n : String) (t1 t2 : Int) (p : String), t1 ≠ t2 →
      ((get_active_goals today
          (Except.ok (set_goal (set_goal gs n t1 p) n t2 p))
          (Except.ok recs)).filter
        (fun row => decide (row.1 = n) && decide (row.2.2.2 = p))) =
      [(n, t2, goalCurrent (today - (if p = "week" then 7 else 0)) recs n, p)]) := by
  constructor
  · intro ops n p
    refine countActive_foldl_le_one ops [] ?_ n p
    intro n2 p2
    simp [countActive]
  · intro gs recs today n t1 t2 p _
    show ((set_goal (set_goal gs n t1 p) n t2 p).filterMap
        (goalRow today recs)).filter
      (fun row => decide (row.1 = n) && decide (row.2.2.2 = p)) = _
    unfold set_goal
    rw [List.map_append, List.filterMap_append, List.filter_append,
      List.filterMap_append, List.filter_append]
    rw [goalRows_deactivated today recs n p (gs.map (deactivate n p))]
    have hd1 : (([⟨n, t1, p, "TRUE"⟩] : List GoalRec).map (deactivate n p)) =
        [⟨n, t1, p, "FALSE"⟩] := by
      simp [deactivate]
    rw [hd1]
    have h2 : goalRow today recs (⟨n, t1, p, "FALSE"⟩ : GoalRec) = none := by
      simp [goalRow]
    have h3 : goalRow today recs (⟨n, t2, p, "TRUE"⟩ : GoalRec) =
        some (n, t2, goalCurrent (today - (if p = "week" then 7 else 0)) recs n, p) := by
      simp [goalRow]
    simp [List.filterMap_cons, h2, h3, List.filter_cons]

/-- Witness for C4 at concrete targets. -/
theorem set_goal_exclusive_witness :
    ((100 : Int) ≠ 150) ∧
    ((get_active_goals 0
        (Except.ok (set_goal (set_goal [] "exercise" 100 "week") "exercise" 150 "week"))
        (Except.ok [])).filter
      (fun row => decide (row.1 = "exercise") && decide (row.2.2.2 = "week"))) =
    [("exercise", 150, goalCurrent (0 - (if "week" = "week" then 7 else 0)) [] "exercise", "week")] :=
  ⟨by decide, set_goal_exclusive.2 [] [] 0 "exercise" 100 150 "week" (by decide)⟩

/-! ## C6: goal percentage and progress bar -/

/-- C6: the displayed percentage is current over target times 100 for a
positive target and 0 for any other target, never dividing by zero; for a
nonnegative percentage the bar shows the floor of a tenth of the
percentage as filled segments out of ten; and the active-goals row for a
goal of target 150 with 90 minutes logged in the window yields 60 percent
with 6 filled segments. -/
theorem goals_progress_bar :
    (∀ current target : Int,
      (0 < target →
        progress_pct current target = (current : ℚ) / (target : ℚ) * 100) ∧
      (target ≤ 0 → progress_pct current target = 0) ∧
      (0 ≤ progress_pct current target →
        (barFilled (progress_pct current target) : Int) =
          ⌊progress_pct current target / 10⌋)) ∧
    get_active_goals 10 (Except.ok [⟨"exercise", 150, "week", "TRUE"⟩])
        (Except.ok [⟨"exercise", 90, "ts", "", some 10⟩]) =
      [("exercise", 150, 90, "week")] ∧
    progress_pct 90 150 = 60 ∧
    barFilled (progress_pct 90 150) = 6 := by
  have hbar : ∀ q : ℚ, 0 ≤ q → (barFilled q : Int) = ⌊q / 10⌋ := by
    intro q hq
    have h10 : (0 : ℚ) ≤ q / 10 := div_nonneg hq (by norm_num)
    have htr : truncQ (q / 10) = ⌊q / 10⌋ := by simp [truncQ, h10]
    have hfl : 0 ≤ ⌊q / 10⌋ := Int.floor_nonneg.mpr h10
    unfold barFilled render_bar
    rw [htr]
    rw [show (String.mk (List.replicate (⌊q / 10⌋).toNat '█' ++
        List.replicate ((10 : Int) - ⌊q / 10⌋).toNat '░')).data =
      List.replicate (⌊q / 10⌋).toNat '█' ++
        List.replicate ((10 : Int) - ⌊q / 10⌋).toNat '░' from rfl]
    rw [List.count_append, List.count_replicate_self, List.count_replicate]
    simp only [show (('░' == '█') = true) = False by simp, if_false]
    rw [Nat.add_zero]
    exact Int.toNat_of_nonneg hfl
  refine ⟨?_, by decide, ?_, ?_⟩
  · intro c t
    refine ⟨fun h => by simp [progress_pct, h], fun h => ?_, fun h => hbar _ h⟩
    have hnot : ¬0 < t := not_lt.mpr h
    simp [progress_pct, hnot]
  · norm_num [progress_pct]
  · have h60 : progress_pct 90 150 = 60 := by norm_num [progress_pct]
    have h6 : (barFilled (progress_pct 90 150) : Int) = 6 := by
      rw [hbar _ (by rw [h60]; norm_num)]
      rw [h60]
      norm_num
    exact_mod_cast h6

/-- Witness for C6 at target 150 and current 90. -/
theorem goals_progress_bar_witness :
    ((0 : Int) < 150) ∧
    progress_pct 90 150 = (90 : ℚ) / (150 : ℚ) * 100 ∧
    (0 : ℚ) ≤ progress_pct 90 150 ∧
    (barFilled (progress_pct 90 150) : Int) = ⌊progress_pct 90 150 / 10⌋ := by
  have h1 : (0 : Int) < 150 := by decide
  have h3 : (0 : ℚ) ≤ progress_pct 90 150 := by norm_num [progress_pct]
  exact ⟨h1, (goals_progress_bar.1 90 150).1 h1, h3,
    (goals_progress_bar.1 90 150).2.2 h3⟩

/-! ## C1: streak -/

/-- Greatest element of a list of day numbers; the claim refers to the
maximum logged date. -/
def maxDate : List Int → Option Int
  | [] => none
  | d :: rest =>
      match maxDate rest with
      | none => some d
      | some m => some (max d m)

/-- Written from the claim: the length of the maximal run of dates ending
at the start value in which each successive date is exactly one day
earlier, encoded as a membership walk with fuel bounded by the number of
distinct dates. -/
def chainLen (dates : List Int) : Int → Nat → Nat
  | _, 0 => 0
  | d, fuel + 1 => if d ∈ dates then 1 + chainLen dates (d - 1) fuel else 0

/-- The streak as the claim words it: 0 when no entry of the activity has
a date, 0 when the maximum logged date is strictly earlier than yesterday,
and otherwise the maximal consecutive run ending at the maximum. -/
def streak_claim (today : Int) (recs : List ActivityRecord)
    (activity_name : String) : Nat :=
  let dates := streakDates recs activity_name
  match maxDate dates with
  | none => 0
  | some D => if D < today - 1 then 0 else chainLen dates D dates.length

theorem chainLen_succ (dates : List Int) (d : Int) (fuel : Nat) :
    chainLen dates d (fuel + 1) =
      if d ∈ dates then 1 + chainLen dates (d - 1) fuel else 0 := rfl

theorem maxDate_eq_none : ∀ l : List Int, maxDate l = none ↔ l = []
  | [] => by simp [maxDate]
  | d :: rest => by cases h : maxDate rest <;> simp [maxDate, h]

theorem maxDate_spec : ∀ (l : List Int) (d : Int),
    maxDate l = some d → d ∈ l ∧ ∀ x ∈ l, x ≤ d
  | [], d => by simp [maxDate]
  | a :: rest, d => by
      intro hmd
      cases h : maxDate rest with
      | none =>
          have hr : rest = [] := (maxDate_eq_none rest).mp h
          subst hr
          simp only [maxDate] at hmd
          cases hmd
          refine ⟨List.mem_singleton_self a, ?_⟩
          intro x hx
          rw [List.mem_singleton.mp hx]
      | some m =>
          simp only [maxDate, h] at hmd
          cases hmd
          obtain ⟨hm, hb⟩ := maxDate_spec rest m h
          constructor
          · rcases max_choice a m with hc | hc
            · rw [hc]; exact List.mem_cons_self a rest
            · rw [hc]; exact List.mem_cons_of_mem a hm
          · intro x hx
            rcases List.mem_cons.mp hx with hx | hx
            · rw [hx]; exact le_max_left a m
            · exact le_trans (hb x hx) (le_max_right a m)

theorem maxDate_eq_some (l : List Int) (d : Int) (hmem : d ∈ l)
    (hub : ∀ x ∈ l, x ≤ d) : maxDate l = some d := by
  cases h : maxDate l with
  | none =>
      rw [(maxDate_eq_none l).mp h] at hmem
      cases hmem
  | some m =>
      obtain ⟨hm, hb⟩ := maxDate_spec l m h
      have h1 : m ≤ d := hub m hm
      have h2 : d ≤ m := hb d hmem
      exact congrArg some (le_antisymm h1 h2)

theorem chainLen_congr (l1 l2 : List Int) (h : ∀ x : Int, x ∈ l1 ↔ x ∈ l2) :
    ∀ (fuel : Nat) (d : Int), chainLen l1 d fuel = chainLen l2 d fuel := by
  intro fuel
  induction fuel with
  | zero => intro d; rfl
  | succ n ih =>
      intro d
      rw [chainLen_succ, chainLen_succ]
      by_cases hd : d ∈ l1
      · rw [if_pos hd, if_pos ((h d).mp hd), ih]
      · rw [if_neg hd, if_neg (fun hc => hd ((h d).mpr hc))]

theorem chainLen_cons_lt (d0 : Int) (l : List Int) :
    ∀ (fuel : Nat) (d : Int), d < d0 →
    chainLen (d0 :: l) d fuel = chainLen l d fuel := by
  intro fuel
  induction fuel with
  | zero => intro d _; rfl
  | succ n ih =>
      intro d hd
      rw [chainLen_succ, chainLen_succ]
      have hmem : (d ∈ d0 :: l) ↔ d ∈ l := by
        simp [List.mem_cons, ne_of_lt hd]
      by_cases h : d ∈ l
      · rw [if_pos (hmem.mpr h), if_pos h, ih (d - 1) (by omega)]
      · rw [if_neg (fun hc => h (hmem.mp hc)), if_neg h]

theorem chainLen_not_mem (l : List Int) (d : Int) (hd : d ∉ l) :
    ∀ fuel : Nat, chainLen l d fuel = 0 := by
  intro fuel
  cases fuel with
  | zero => rfl
  | succ n => simp [chainLen_succ, hd]

/-- Over a strictly decreasing date list, the gap walk of the source
computes exactly the maximal consecutive run of the claim. -/
theorem streakWalk_eq_chainLen :
    ∀ (rest : List Int) (d0 : Int),
    List.Pairwise (fun a b : Int => b < a) (d0 :: rest) →
    streakWalk d0 rest = chainLen (d0 :: rest) d0 (rest.length + 1) := by
  intro rest
  induction rest with
  | nil =>
      intro d0 _
      simp [streakWalk, chainLen_succ, chainLen]
  | cons d1 rest2 ih =>
      intro d0 hs
      rw [List.pairwise_cons] at hs
      obtain ⟨hhead, htail⟩ := hs
      have hd1 : d1 < d0 := hhead d1 (List.mem_cons_self d1 rest2)
      have hd0mem : d0 ∈ d0 :: d1 :: rest2 := List.mem_cons_self _ _
      simp only [streakWalk, List.length_cons]
      rw [chainLen_succ, if_pos hd0mem]
      by_cases heq : d0 - d1 = 1
      · rw [if_pos heq]
        have hstep : d0 - 1 = d1 := by omega
        rw [hstep, chainLen_cons_lt d0 (d1 :: rest2) (rest2.length + 1) d1 hd1,
          ih d1 htail]
      · rw [if_neg heq]
        have hnot : d0 - 1 ∉ d0 :: d1 :: rest2 := by
          intro hc
          rcases List.mem_cons.mp hc with h | h
          · omega
          rcases List.mem_cons.mp h with h | h
          · omega
          · have hx := (List.pairwise_cons.mp htail).1 _ h
            omega
        rw [chainLen_not_mem _ _ hnot]

/-- Reduction of the streak body once the sorted date list is known. -/
theorem streakOfDates_cons (today : Int) (dates : List Int) (d0 : Int)
    (rest : List Int) (hne : dates ≠ [])
    (hl : (List.insertionSort (fun a b : Int => a ≤ b) dates).reverse = d0 :: rest) :
    streakOfDates today dates = if d0 < today - 1 then 0 else streakWalk d0 rest := by
  unfold streakOfDates
  rw [if_neg (fun hc => hne (List.isEmpty_iff.mp hc)), hl]

/-- The streak body agrees with the claim reading on duplicate-free date
lists. -/
theorem streakOfDates_eq_claim (today : Int) (dates : List Int)
    (hnd : dates.Nodup) :
    streakOfDates today dates =
      (match maxDate dates with
        | none => 0
        | some D => if D < today - 1 then 0 else chainLen dates D dates.length) := by
  have hperm : (List.insertionSort (fun a b : Int => a ≤ b) dates).reverse.Perm dates :=
    (List.reverse_perm _).trans (List.perm_insertionSort _ dates)
  cases hl : (List.insertionSort (fun a b : Int => a ≤ b) dates).reverse with
  | nil =>
      rw [hl] at hperm
      have hd : dates = [] := (hperm.symm).eq_nil
      subst hd
      simp [streakOfDates, maxDate]
  | cons d0 rest =>
      rw [hl] at hperm
      have hne : dates ≠ [] := by
        intro h
        subst h
        have := hperm.eq_nil
        simp at this
      have hsorted : List.Pairwise (fun a b : Int => b ≤ a)
          ((List.insertionSort (fun a b : Int => a ≤ b) dates).reverse) := by
        rw [List.pairwise_reverse]
        exact List.sorted_insertionSort _ dates
      rw [hl] at hsorted
      have hnodup : (d0 :: rest).Nodup := hperm.symm.nodup hnd
      have hstrict : List.Pairwise (fun a b : Int => b < a) (d0 :: rest) :=
        (hsorted.and hnodup).imp
          (fun hab => lt_of_le_of_ne hab.1 hab.2.symm)
      have hd0mem : d0 ∈ dates := hperm.mem_iff.mp (List.mem_cons_self _ _)
      have hub : ∀ x ∈ dates, x ≤ d0 := by
        intro x hx
        rcases List.mem_cons.mp (hperm.mem_iff.mpr hx) with h | h
        · exact le_of_eq h
        · exact le_of_lt ((List.pairwise_cons.mp hstrict).1 x h)
      have hmax : maxDate dates = some d0 := maxDate_eq_some dates d0 hd0mem hub
      rw [streakOfDates_cons today dates d0 rest hne hl]
      simp only [hmax]
      by_cases hlt : d0 < today - 1
      · rw [if_pos hlt, if_pos hlt]
      · rw [if_neg hlt, if_neg hlt,
          streakWalk_eq_chainLen rest d0 hstrict]
        have hlen : dates.length = rest.length + 1 := by
          have hl2 := hperm.length_eq
          simp only [List.length_cons] at hl2
          omega
        rw [hlen]
        exact chainLen_congr _ _ (fun x => hperm.mem_iff) _ d0

/-- get_streak agrees with the claim reading of the streak. -/
theorem get_streak_eq_claim (today : Int) (recs : List ActivityRecord)
    (name : String) :
    get_streak today (Except.ok recs) name = streak_claim today recs name := by
  have hnd : (streakDates recs name).Nodup := by
    unfold streakDates
    exact List.nodup_dedup _
  show streakOfDates today (streakDates recs name) = _
  rw [streakOfDates_eq_claim today _ hnd]
  rfl

/-- C1: the streak is 0 when no entry of the activity has a date, 0 when
the maximum logged date is strictly earlier than yesterday, and otherwise
the length of the maximal run of distinct logged dates ending at the
maximum in which each successive date is exactly one day earlier; in
particular dates today, yesterday and the day before give 3, and a gap at
yesterday gives 1. -/
theorem get_streak_matches_claim :
    (∀ (today : Int) (recs : List ActivityRecord) (name : String),
      get_streak today (Except.ok recs) name = streak_claim today recs name) ∧
    get_streak 100 (Except.ok [⟨"run", 10, "", "", some 100⟩,
      ⟨"run", 10, "", "", some 99⟩, ⟨"run", 10, "", "", some 98⟩]) "run" = 3 ∧
    get_streak 100 (Except.ok [⟨"run", 10, "", "", some 100⟩,
      ⟨"run", 10, "", "", some 98⟩]) "run" = 1 :=
  ⟨get_streak_eq_claim, by decide, by decide⟩

/-! ## C3: the aggregation window

The dictionary fold of the source is related to a direct filter-and-group
description, so that the window cutoff becomes visible in the statement. -/

/-- The dictionary fold restricted to the rows that already passed the
window filter. -/
def relFold (rel : List ActivityRecord) (m0 : List (String × Int × Nat)) :
    List (String × Int × Nat) :=
  rel.foldl (fun m r => upsert m r.name r.duration) m0

theorem relFold_cons (r : ActivityRecord) (l : List ActivityRecord)
    (m0 : List (String × Int × Nat)) :
    relFold (r :: l) m0 = relFold l (upsert m0 r.name r.duration) := rfl

/-- How a dictionary lookup changes across a run of upserts: untouched when
no row matches, otherwise started or increased by the matching rows. -/
def combineLk (o : Option (Int × Nat)) (l : List ActivityRecord) :
    Option (Int × Nat) :=
  match l with
  | [] => o
  | _ :: _ =>
      match o with
      | none => some ((l.map (fun r => r.duration)).sum, l.length)
      | some (t, k) => some (t + (l.map (fun r => r.duration)).sum, k + l.length)

/-- The guarded fold of the source equals the plain fold over the filtered
rows. -/
theorem weekFold_eq_relFold (cutoff : Int) :
    ∀ (recs : List ActivityRecord) (m0 : List (String × Int × Nat)),
    recs.foldl
      (fun m r => if dateGeB cutoff r.date then upsert m r.name r.duration else m)
      m0 =
      relFold (recs.filter (fun r => dateGeB cutoff r.date)) m0 := by
  intro recs
  induction recs with
  | nil => intro m0; rfl
  | cons r rest ih =>
      intro m0
      rw [List.foldl_cons, List.filter_cons]
      by_cases h : dateGeB cutoff r.date = true
      · rw [if_pos h, if_pos h, relFold_cons, ih]
      · rw [if_neg h, if_neg h, ih]

theorem alookup_upsert (m : List (String × Int × Nat)) (name : String)
    (dur : Int) (n : String) :
    alookup (upsert m name dur) n =
      if n = name then
        (match alookup m n with
          | none => some (dur, 1)
          | some (t, c) => some (t + dur, c + 1))
      else alookup m n := by
  induction m with
  | nil =>
      by_cases hn : n = name
      · subst hn
        simp [upsert, alookup]
      · have hne : ¬name = n := fun h => hn h.symm
        simp [upsert, alookup, hn, hne]
  | cons e m2 ih =>
      obtain ⟨k, t, c⟩ := e
      by_cases hk : k = name
      · subst hk
        by_cases hn : n = k
        · subst hn
          simp [upsert, alookup]
        · have hne : ¬k = n := fun h => hn h.symm
          simp [upsert, alookup, hn, hne]
      · by_cases hn : k = n
        · subst hn
          have hne : ¬k = name := hk
          have hne2 : ¬name = k := fun h => hk h.symm
          simp [upsert, alookup, hne, hne2]
        · simp [upsert, alookup, hk, hn, ih]

theorem mem_keys_upsert (m : List (String × Int × Nat)) (name : String)
    (dur : Int) (x : String) :
    x ∈ (upsert m name dur).map Prod.fst ↔
      x ∈ m.map Prod.fst ∨ x = name := by
  induction m with
  | nil => simp [upsert]
  | cons e m2 ih =>
      obtain ⟨k, t, c⟩ := e
      by_cases hk : k = name
      · subst hk
        have hup : upsert ((k, t, c) :: m2) k dur = (k, t + dur, c + 1) :: m2 := by
          simp [upsert]
        rw [hup]
        simp only [List.map_cons, List.mem_cons]
        tauto
      · simp only [upsert, if_neg hk, List.map_cons, List.mem_cons, ih]
        tauto

theorem nodup_keys_upsert (m : List (String × Int × Nat)) (name : String)
    (dur : Int) (h : (m.map Prod.fst).Nodup) :
    ((upsert m name dur).map Prod.fst).Nodup := by
  induction m with
  | nil => simp [upsert]
  | cons e m2 ih =>
      obtain ⟨k, t, c⟩ := e
      rw [List.map_cons, List.nodup_cons] at h
      obtain ⟨hk2, hnd2⟩ := h
      by_cases hk : k = name
      · subst hk
        have hup : upsert ((k, t, c) :: m2) k dur = (k, t + dur, c + 1) :: m2 := by
          simp [upsert]
        rw [hup, List.map_cons, List.nodup_cons]
        exact ⟨hk2, hnd2⟩
      · have hup : upsert ((k, t, c) :: m2) name dur =
            (k, t, c) :: upsert m2 name dur := by
          simp [upsert, hk]
        rw [hup, List.map_cons, List.nodup_cons]
        refine ⟨?_, ih hnd2⟩
        rw [mem_keys_upsert]
        rintro (h | h)
        · exact hk2 h
        · exact hk h

theorem alookup_relFold :
    ∀ (rel : List ActivityRecord) (m0 : List (String × Int × Nat)) (n : String),
    alookup (relFold rel m0) n =
      combineLk (alookup m0 n) (rel.filter (fun r => decide (r.name = n))) := by
  intro rel
  induction rel with
  | nil => intro m0 n; rfl
  | cons r rel2 ih =>
      intro m0 n
      rw [relFold_cons, ih, alookup_upsert, List.filter_cons]
      by_cases hn : r.name = n
      · rw [if_pos hn.symm,
          if_pos (show decide (r.name = n) = true by simpa using hn)]
        cases ho : alookup m0 n with
        | none =>
            cases hf : rel2.filter (fun r => decide (r.name = n)) with
            | nil => simp [combineLk]
            | cons x xs =>
                simp only [combineLk, List.map_cons, List.sum_cons,
                  List.length_cons, Option.some.injEq, Prod.mk.injEq]
                constructor
                · ring_nf
                · omega
        | some p =>
            obtain ⟨t, c⟩ := p
            cases hf : rel2.filter (fun r => decide (r.name = n)) with
            | nil => simp [combineLk]
            | cons x xs =>
                simp only [combineLk, List.map_cons, List.sum_cons,
                  List.length_cons, Option.some.injEq, Prod.mk.injEq]
                constructor
                · ring_nf
                · omega
      · rw [if_neg (fun hc => hn hc.symm),
          if_neg (show ¬decide (r.name = n) = true by simpa using hn)]

theorem mem_keys_relFold :
    ∀ (rel : List ActivityRecord) (m0 : List (String × Int × Nat)) (x : String),
    x ∈ (relFold rel m0).map Prod.fst ↔
      x ∈ m0.map Prod.fst ∨ x ∈ rel.map (fun r => r.name) := by
  intro rel
  induction rel with
  | nil => intro m0 x; simp [relFold]
  | cons r rel2 ih =>
      intro m0 x
      rw [relFold_cons, ih, mem_keys_upsert]
      simp only [List.map_cons, List.mem_cons]
      tauto

theorem nodup_keys_relFold :
    ∀ (rel : List ActivityRecord) (m0 : List (String × Int × Nat)),
    (m0.map Prod.fst).Nodup → ((relFold rel m0).map Prod.fst).Nodup := by
  intro rel
  induction rel with
  | nil => intro m0 h; exact h
  | cons r rel2 ih =>
      intro m0 h
      rw [relFold_cons]
      exact ih _ (nodup_keys_upsert m0 r.name r.duration h)

/-- Written from the claim: the entries inside the window at the given
cutoff, grouped by name, listed in sorted name order with the total
duration and the entry count of each name. -/
def week_summary_spec (cutoff : Int) (recs : List ActivityRecord) :
    List (String × Int × Nat) :=
  let rel := recs.filter (fun r => dateGeB cutoff r.date)
  (List.insertionSort strLe ((rel.map (fun r => r.name)).dedup)).map
    (fun n => (n,
      (((rel.filter (fun r => decide (r.name = n))).map (fun r => r.duration)).sum,
        (rel.filter (fun r => decide (r.name = n))).length)))

/-- The week summary of the source equals the grouped description over the
window whose cutoff is the day seven days before today. -/
theorem week_summary_rows_eq_spec (today : Int) (recs : List ActivityRecord) :
    week_summary_rows today recs = week_summary_spec (today - 7) recs := by
  unfold week_summary_rows week_summary_spec weekFold
  rw [weekFold_eq_relFold]
  set rel := recs.filter (fun r => dateGeB (today - 7) r.date) with hrel
  set M := relFold rel [] with hM
  have hkeys_nodup : (M.map Prod.fst).Nodup := by
    rw [hM]
    exact nodup_keys_relFold rel [] (by simp)
  have hnames_nodup : ((rel.map (fun r => r.name)).dedup).Nodup :=
    List.nodup_dedup _
  have hmem : ∀ x, x ∈ M.map Prod.fst ↔ x ∈ (rel.map (fun r => r.name)).dedup := by
    intro x
    rw [hM, mem_keys_relFold rel [] x, List.mem_dedup]
    simp
  have hperm : (M.map Prod.fst).Perm ((rel.map (fun r => r.name)).dedup) :=
    (List.perm_ext_iff_of_nodup hkeys_nodup hnames_nodup).mpr hmem
  have hsort_eq : List.insertionSort strLe (M.map Prod.fst) =
      List.insertionSort strLe ((rel.map (fun r => r.name)).dedup) := by
    refine List.eq_of_perm_of_sorted ?_ (List.sorted_insertionSort _ _)
      (List.sorted_insertionSort _ _)
    exact ((List.perm_insertionSort _ _).trans hperm).trans
      (List.perm_insertionSort _ _).symm
  dsimp only
  rw [hsort_eq]
  refine List.map_congr_left ?_
  intro n hn
  have hn2 : n ∈ rel.map (fun r => r.name) :=
    List.mem_dedup.mp ((List.perm_insertionSort strLe _).mem_iff.mp hn)
  obtain ⟨r0, hr0, hr0n⟩ := List.mem_map.mp hn2
  have hfil : r0 ∈ rel.filter (fun r => decide (r.name = n)) := by
    rw [List.mem_filter]
    exact ⟨hr0, by simp [hr0n]⟩
  have hlk := alookup_relFold rel [] n
  cases hf : rel.filter (fun r => decide (r.name = n)) with
  | nil => rw [hf] at hfil; cases hfil
  | cons x xs =>
      rw [hf] at hlk
      rw [show alookup ([] : List (String × Int × Nat)) n = none from rfl] at hlk
      rw [show combineLk none (x :: xs) =
          some (((x :: xs).map (fun r => r.duration)).sum, (x :: xs).length)
        from rfl] at hlk
      rw [← hM] at hlk
      simp [hlk, hf]

def demoWeekRec : ActivityRecord := ⟨"exercise", 30, "", "", some 3⟩

/-- C3 counterexample: an entry dated exactly seven days before today (day
3 with today 10) is summed by both the week summary and the week-goal
progress of the code, while the claimed window (date at least today minus
6) excludes it. -/
theorem week_window_includes_seventh_day :
    get_week_summary 10 (Except.ok [demoWeekRec]) = [("exercise", 30, 1)] ∧
    week_summary_spec (10 - 6) [demoWeekRec] = [] ∧
    get_active_goals 10 (Except.ok [⟨"exercise", 150, "week", "TRUE"⟩])
        (Except.ok [demoWeekRec]) = [("exercise", 150, 30, "week")] ∧
    goalCurrent (10 - 6) [demoWeekRec] "exercise" = 0 :=
  ⟨by decide, by decide, by decide, by decide⟩

/-- C3 amended: both computations use the window of dates at least today
minus 7, an eight-day inclusive window that still contains the day seven
days ago: the week summary equals the grouped totals over exactly those
entries, and every active-goals row of a week-period goal reports as
current the duration sum over exactly those entries of its activity. -/
theorem week_window_seven_days_back :
    ∀ (today : Int) (recs : List ActivityRecord),
    get_week_summary today (Except.ok recs) = week_summary_spec (today - 7) recs ∧
    ∀ (goals : List GoalRec) (n : String) (t c : Int) (p : String),
      (n, t, c, p) ∈ get_active_goals today (Except.ok goals) (Except.ok recs) →
      p = "week" →
      c = ((recs.filter (fun r =>
          decide (r.name = n) && dateGeB (today - 7) r.date)).map
        (fun r => r.duration)).sum := by
  intro today recs
  constructor
  · exact week_summary_rows_eq_spec today recs
  · intro goals n t c p hmem hp
    rw [show get_active_goals today (Except.ok goals) (Except.ok recs) =
        goals.filterMap (goalRow today recs) from rfl] at hmem
    obtain ⟨g, hg, hrow⟩ := List.mem_filterMap.mp hmem
    unfold goalRow at hrow
    by_cases hact : g.active = "TRUE"
    · rw [if_pos hact] at hrow
      simp only [Option.some.injEq, Prod.mk.injEq] at hrow
      obtain ⟨hn, ht, hc, hp2⟩ := hrow
      subst hn
      subst hp2
      rw [hp, if_pos rfl] at hc
      rw [← hc]
      rfl
    · rw [if_neg hact] at hrow
      exact Option.noConfusion hrow

/-- Witness for C3 amended at a one-entry store with a week goal. -/
theorem week_window_seven_days_back_witness :
    (("exercise", (150 : Int), (30 : Int), "week") ∈
      get_active_goals 10 (Except.ok [⟨"exercise", 150, "week", "TRUE"⟩])
        (Except.ok [demoWeekRec])) ∧
    (30 : Int) = (([demoWeekRec].filter (fun r =>
        decide (r.name = "exercise") && dateGeB (10 - 7) r.date)).map
      (fun r => r.duration)).sum :=
  ⟨by decide,
    (week_window_seven_days_back 10 [demoWeekRec]).2
      [⟨"exercise", 150, "week", "TRUE"⟩] "exercise" 150 30 "week"
      (by decide) rfl⟩
